import Mathlib

/-!
Verification of the binary-bomb virtual machine.

The repository contains two variants of the interpreter:
* the sparse-line-map variant (the `App.js`-style file): a self-modifying
  program store mapping integer line numbers to instructions, with
  `insertLine`, `getDisplayedProgram`, generic `CJUMP`/`JUMP`/`COPY`/`TTRAVEL`
  opcodes, a 1-indexed program counter, and missing lines fetched as a
  synthetic `EMPTY` instruction (namespace `SparseVM` below);
* the fixed-length-array variant (`src/BombGame.js`): a read-only instruction
  array with `JMP`/`BEQ`/`BNE`/`BGT`/`BLT` mnemonics, a 0-indexed program
  counter, and out-of-bounds program counters treated as an immediate loss
  (namespace `FixedVM` below).

JavaScript objects used as dictionaries (the program store, the register
snapshot, the history map) are embedded as association lists together with
lookup / has-key / assign operations that mirror property access,
`hasOwnProperty` / `in`, and property assignment (overwrite in place when the
key exists, append otherwise, as JS objects preserve insertion order).
-/

/-- A JS object property read `m[k]`: the value at the first matching key. -/
def jsLookup {κ ν : Type} [DecidableEq κ] (k : κ) : List (κ × ν) → Option ν
  | [] => none
  | (k₀, x) :: rest => if k₀ = k then some x else jsLookup k rest

/-- A JS `k in m` / `m.hasOwnProperty(k)` test. -/
def jsHasKey {κ ν : Type} [DecidableEq κ] (k : κ) (m : List (κ × ν)) : Bool :=
  (jsLookup k m).isSome

/-- Overwrite the value stored under `k` in place, preserving key order. -/
def jsReplace {κ ν : Type} [DecidableEq κ] (k : κ) (x : ν) :
    List (κ × ν) → List (κ × ν)
  | [] => []
  | (k₀, y) :: rest =>
      (if k₀ = k then (k, x) else (k₀, y)) :: jsReplace k x rest

/-- A JS property assignment `m[k] = x` on a copy of the object: replace the
value in place when the key exists (preserving key order), append otherwise. -/
def jsSet {κ ν : Type} [DecidableEq κ] (k : κ) (x : ν) (m : List (κ × ν)) :
    List (κ × ν) :=
  if (jsLookup k m).isSome then jsReplace k x m
  else m ++ [(k, x)]

/-- The keys of a JS object are pairwise distinct. -/
def NodupKeys {κ ν : Type} (m : List (κ × ν)) : Prop :=
  (m.map Prod.fst).Nodup

instance {κ ν : Type} [DecidableEq κ] (m : List (κ × ν)) :
    Decidable (NodupKeys m) := by
  unfold NodupKeys; infer_instance

section JsMapLemmas

variable {κ ν : Type} [DecidableEq κ]

theorem jsLookup_append_of_some {k : κ} {m₁ : List (κ × ν)} {v : ν}
    (h : jsLookup k m₁ = some v) (m₂ : List (κ × ν)) :
    jsLookup k (m₁ ++ m₂) = some v := by
  induction m₁ with
  | nil => simp [jsLookup] at h
  | cons p rest ih =>
      obtain ⟨k₀, x⟩ := p
      by_cases hk : k₀ = k
      · subst hk
        simp [jsLookup] at h ⊢
        exact h
      · simp [jsLookup, hk] at h ⊢
        exact ih h

theorem jsLookup_append_of_none {k : κ} {m₁ : List (κ × ν)}
    (h : jsLookup k m₁ = none) (m₂ : List (κ × ν)) :
    jsLookup k (m₁ ++ m₂) = jsLookup k m₂ := by
  induction m₁ with
  | nil => simp
  | cons p rest ih =>
      obtain ⟨k₀, x⟩ := p
      by_cases hk : k₀ = k
      · subst hk; simp [jsLookup] at h
      · simp [jsLookup, hk] at h ⊢
        exact ih h

theorem jsLookup_jsReplace_self (k : κ) (x : ν) (m : List (κ × ν)) :
    jsLookup k (jsReplace k x m) =
      if (jsLookup k m).isSome then some x else none := by
  induction m with
  | nil => simp [jsReplace, jsLookup]
  | cons p rest ih =>
      obtain ⟨k₀, y⟩ := p
      by_cases h : k₀ = k
      · simp only [jsReplace]
        rw [if_pos h]
        subst h
        simp [jsLookup]
      · simp only [jsReplace]
        rw [if_neg h]
        simp [jsLookup, h, ih]

theorem jsLookup_jsReplace_ne {k k₀ : κ} (hne : k₀ ≠ k) (x : ν)
    (m : List (κ × ν)) :
    jsLookup k₀ (jsReplace k x m) = jsLookup k₀ m := by
  induction m with
  | nil => simp [jsReplace]
  | cons p rest ih =>
      obtain ⟨k₁, y⟩ := p
      by_cases h1 : k₁ = k
      · simp only [jsReplace]
        rw [if_pos h1]
        subst h1
        simp [jsLookup, Ne.symm hne, ih]
      · simp only [jsReplace]
        rw [if_neg h1]
        by_cases h2 : k₁ = k₀
        · subst h2
          simp [jsLookup]
        · simp [jsLookup, h2, ih]

theorem jsLookup_set_self (k : κ) (x : ν) (m : List (κ × ν)) :
    jsLookup k (jsSet k x m) = some x := by
  unfold jsSet
  cases hm : jsLookup k m with
  | some v =>
      simp only [Option.isSome_some, if_true]
      rw [jsLookup_jsReplace_self]
      simp [hm]
  | none =>
      simp only [Option.isSome_none, Bool.false_eq_true, if_false]
      rw [jsLookup_append_of_none hm]
      simp [jsLookup]

theorem jsLookup_set_ne {k k₀ : κ} (hne : k₀ ≠ k) (x : ν) (m : List (κ × ν)) :
    jsLookup k₀ (jsSet k x m) = jsLookup k₀ m := by
  unfold jsSet
  cases hk : jsLookup k m with
  | some v =>
      simp only [Option.isSome_some, if_true]
      exact jsLookup_jsReplace_ne hne x m
  | none =>
      simp only [Option.isSome_none, Bool.false_eq_true, if_false]
      cases hm : jsLookup k₀ m with
      | some v => exact jsLookup_append_of_some hm _
      | none =>
          rw [jsLookup_append_of_none hm]
          simp [jsLookup, Ne.symm hne]

theorem jsReplace_length (k : κ) (x : ν) (m : List (κ × ν)) :
    (jsReplace k x m).length = m.length := by
  induction m with
  | nil => rfl
  | cons p rest ih =>
      obtain ⟨k₀, y⟩ := p
      simp [jsReplace, ih]

theorem jsSet_length_of_isSome {k : κ} {m : List (κ × ν)}
    (h : (jsLookup k m).isSome) (x : ν) :
    (jsSet k x m).length = m.length := by
  simp [jsSet, h, jsReplace_length]

theorem jsSet_length_of_none {k : κ} {m : List (κ × ν)}
    (h : jsLookup k m = none) (x : ν) :
    (jsSet k x m).length = m.length + 1 := by
  simp [jsSet, h]

theorem jsLookup_isSome_iff_mem_keys (k : κ) (m : List (κ × ν)) :
    (jsLookup k m).isSome ↔ k ∈ m.map Prod.fst := by
  induction m with
  | nil => simp [jsLookup]
  | cons p rest ih =>
      obtain ⟨k₀, x⟩ := p
      by_cases h : k₀ = k
      · subst h
        simp [jsLookup]
      · have h2 : k ≠ k₀ := fun hk => h hk.symm
        simp [jsLookup, h, h2, ih]

theorem jsLookup_eq_none_of_not_mem_keys {k : κ} {m : List (κ × ν)}
    (h : k ∉ m.map Prod.fst) : jsLookup k m = none := by
  cases hm : jsLookup k m with
  | none => rfl
  | some v =>
      exact absurd ((jsLookup_isSome_iff_mem_keys k m).mp (by simp [hm])) h

theorem jsLookup_singleton (k₀ k : κ) (x : ν) :
    jsLookup k [(k₀, x)] = if k₀ = k then some x else none := by
  by_cases h : k₀ = k <;> simp [jsLookup, h]

end JsMapLemmas

/-- An instruction operand: a numeric literal or a string token
(register name or numeric string). -/
inductive Arg : Type
  | num (n : ℤ)
  | str (s : String)
deriving DecidableEq

/-- An instruction: an opcode string plus an ordered operand list
(`{ op, args }` records in the source). -/
structure Instr : Type where
  op : String
  args : List Arg
deriving DecidableEq

/-- The synthetic no-op instruction `{ op: "EMPTY", args: [] }` used for
missing program lines. -/
def EMPTYInstr : Instr := ⟨"EMPTY", []⟩

/-- A register snapshot: a JS object mapping register names to integers. -/
abbrev Regs : Type := List (String × ℤ)

/-- A sparse program store: a JS object mapping line numbers to
instructions. -/
abbrev Prog : Type := List (ℤ × Instr)

/-- A history map: a JS object mapping time values to register snapshots. -/
abbrev History : Type := List (ℤ × Regs)

/-- Read of the reserved time register `registers.T`.  Per the data model a
snapshot always contains `T`; the `getD 0` default is never exercised by a
well-formed level. -/
def getT (regs : Regs) : ℤ := (jsLookup "T" regs).getD 0

theorem getT_set_T (v : ℤ) (regs : Regs) : getT (jsSet "T" v regs) = v := by
  simp [getT, jsLookup_set_self]

theorem getT_set_ne {r : String} (h : r ≠ "T") (v : ℤ) (regs : Regs) :
    getT (jsSet r v regs) = getT regs := by
  simp [getT, jsLookup_set_ne (Ne.symm h)]

/-- Decimal digits at the head of a character list, as a natural number;
`none` when there is no leading digit (JS `NaN`). -/
def parseDigits (cs : List Char) : Option ℕ :=
  let ds := cs.takeWhile Char.isDigit
  if ds.isEmpty then none
  else some (ds.foldl (fun a c => a * 10 + (c.toNat - 48)) 0)

/-- JS `parseInt(s, 10)`: skip leading whitespace, read an optional sign and
then the maximal run of decimal digits; `none` models `NaN`. -/
def parseIntJs (s : String) : Option ℤ :=
  let cs := s.toList.dropWhile Char.isWhitespace
  match cs with
  | '-' :: rest => (parseDigits rest).map (fun n => -(n : ℤ))
  | '+' :: rest => (parseDigits rest).map (fun n => (n : ℤ))
  | _ => (parseDigits cs).map (fun n => (n : ℤ))

/-- JS coercion of a value used as an object property key (`newRegisters[dest]`
with a numeric `dest` uses its decimal string). -/
def argKey : Arg → String
  | .num n => toString n
  | .str s => s

/-- The operand passed when an instruction has fewer arguments than the
opcode reads: JS yields `undefined`, which coerces to the property key
`"undefined"` and parses to `NaN` (hence resolves to 0). -/
def undefinedArg : Arg := .str "undefined"

/-- `getValue(arg, regs)` — the value resolver, identical in both source
files: numeric literals resolve to themselves; a token that is a key of the
snapshot resolves to that register's value; otherwise `parseInt`, with
unparsable tokens resolving to 0. -/
def getValue (arg : Arg) (regs : Regs) : ℤ :=
  match arg with
  | .num n => n
  | .str s =>
      match jsLookup s regs with
      | some v => v
      | none =>
          match parseIntJs s with
          | some n => n
          | none => 0

/-- The session status values: `"waiting"`, `"running"`, `"won"`, `"lost"`. -/
inductive GameStatus : Type
  | waiting
  | running
  | won
  | lost
deriving DecidableEq

namespace SparseVM

/-!
The sparse-line-map variant: program store mapping integer line numbers to
instructions, 1-indexed program counter, self-modifying `COPY`, `TTRAVEL`
time travel, and the viewport builder `getDisplayedProgram`.
-/

/-- `convertProgram` for the ordered-list case: assign line numbers 1, 2, …
(the dictionary input case of the source is the identity modulo key
coercion and is not needed by the level data, which are all lists). -/
def convertProgram (prog : List Instr) : Prog :=
  prog.enum.map (fun p => ((p.1 : ℤ) + 1, p.2))

/-- Where an existing line lands after inserting at `target`: lines at or
above `target` shift up by one, lower lines stay (the two assignment
branches of the source's `forEach`). -/
def shiftKey (target key : ℤ) : ℤ :=
  if key ≥ target then key + 1 else key

/-- The ascending key order produced by `Object.keys(prog).map(Number)
.sort((a, b) => a - b)`; insertion sort is used because only the sorted
order is observable. -/
def sortedKeys (prog : Prog) : List ℤ :=
  List.insertionSort (fun a b => a ≤ b) (prog.map Prod.fst)

/-- `insertLine(prog, target, newInstr)`: walk the keys in ascending order,
re-assigning every line `≥ target` to `line + 1` and keeping lower lines,
then store the new instruction at `target`. -/
def insertLine (prog : Prog) (target : ℤ) (newInstr : Instr) : Prog :=
  let keys := sortedKeys prog
  let newProg : Prog := keys.foldl (fun acc key =>
    match jsLookup key prog with
    | some v => jsSet (shiftKey target key) v acc
    | none => acc) []
  jsSet target newInstr newProg

/-- Instruction fetch `prog[line] || { op: "EMPTY", args: [] }`. -/
def fetch (prog : Prog) (line : ℤ) : Instr :=
  (jsLookup line prog).getD EMPTYInstr

/-- One row of the program viewport: a real line with its instruction, or
the `{ line: "...", instr: null }` gap marker. -/
inductive DisplayEntry : Type
  | gap
  | line (n : ℤ) (instr : Instr)
deriving DecidableEq

/-- The key set of the viewport: every store key with both neighbours, plus
the program counter with both neighbours, deduplicated and sorted
ascending (`Set` insertion followed by `sort((a, b) => a - b)`). -/
def displayKeys (prog : Prog) (pc : ℤ) : List ℤ :=
  let all :=
    (prog.map Prod.fst).flatMap (fun num => [num, num - 1, num + 1]) ++
      [pc - 1, pc, pc + 1]
  List.insertionSort (fun a b => a ≤ b) all.dedup

/-- The display loop: emit each retained line (missing lines as `EMPTY`),
inserting one gap marker whenever consecutive retained lines differ by
more than 1. -/
def renderLines (prog : Prog) : List ℤ → List DisplayEntry
  | [] => []
  | [k] => [.line k (fetch prog k)]
  | a :: b :: rest =>
      .line a (fetch prog a) ::
        ((if b - a > 1 then [.gap] else []) ++ renderLines prog (b :: rest))

/-- `getDisplayedProgram(prog, pc)`. -/
def getDisplayedProgram (prog : Prog) (pc : ℤ) : List DisplayEntry :=
  renderLines prog (displayKeys prog pc)

/-- The tuple of state produced by one interpreter step, plus the status
transition requested by `setGameStatus` (if any). -/
structure StepResult : Type where
  registers : Regs
  pc : ℤ
  program : Prog
  history : History
  statusEffect : Option GameStatus
deriving DecidableEq

/-- The body of `step` after the instruction fetch: increment `T`, compute
the default next pc (terminal instructions hold), run the opcode switch,
and commit the resulting snapshot to the history under its `T` value.
Factored from `step` so that a given instruction's semantics can be
exercised directly. -/
def execInstr (instr : Instr) (program : Prog) (pc : ℤ) (registers : Regs)
    (history : History) : StepResult :=
  let newT := getT registers + 1
  let newRegisters := jsSet "T" newT registers
  let newPC := if instr.op = "DEFUSE" ∨ instr.op = "EXPLODE" then pc else pc + 1
  let result : Regs × ℤ × Prog × Option GameStatus :=
    if instr.op = "ADD" then
      let val1 := getValue (instr.args.getD 0 undefinedArg) newRegisters
      let val2 := getValue (instr.args.getD 1 undefinedArg) newRegisters
      let dest := argKey (instr.args.getD 2 undefinedArg)
      (jsSet dest (val1 + val2) newRegisters, newPC, program, none)
    else if instr.op = "JUMP" then
      (newRegisters, getValue (instr.args.getD 0 undefinedArg) newRegisters,
        program, none)
    else if instr.op = "CJUMP" then
      let leftValue := getValue (instr.args.getD 0 undefinedArg) newRegisters
      let operator := instr.args.getD 1 undefinedArg
      let rightValue := getValue (instr.args.getD 2 undefinedArg) newRegisters
      let target := getValue (instr.args.getD 3 undefinedArg) newRegisters
      let condition : Bool :=
        if operator = .str "<" then leftValue < rightValue
        else if operator = .str ">" then leftValue > rightValue
        else if operator = .str "=" then leftValue = rightValue
        else if operator = .str "≠" then leftValue ≠ rightValue
        else false
      (newRegisters, if condition then target else newPC, program, none)
    else if instr.op = "COPY" then
      if instr.args.length = 2 then
        let source := getValue (instr.args.getD 0 undefinedArg) newRegisters
        let target := getValue (instr.args.getD 1 undefinedArg) newRegisters
        let copyInstr :=
          match jsLookup source program with
          | some found => found
          | none => EMPTYInstr
        let newProgram := insertLine program target copyInstr
        (newRegisters, if pc ≥ target then newPC + 1 else newPC,
          newProgram, none)
      else
        let source := getValue (instr.args.getD 0 undefinedArg) newRegisters
        let target := pc + 1
        let copyInstr :=
          match jsLookup source program with
          | some found => found
          | none => EMPTYInstr
        (newRegisters, newPC, insertLine program target copyInstr, none)
    else if instr.op = "EMPTY" then
      (newRegisters, newPC, program, none)
    else if instr.op = "TTRAVEL" then
      let travelTime := getT newRegisters
      (match jsLookup travelTime history with
        | some snap => snap
        | none => newRegisters, newPC, program, none)
    else if instr.op = "DEFUSE" then
      (newRegisters, newPC, program, some GameStatus.won)
    else if instr.op = "EXPLODE" then
      (newRegisters, newPC, program, some GameStatus.lost)
    else
      (newRegisters, newPC, program, none)
  { registers := result.1
    pc := result.2.1
    program := result.2.2.1
    history := jsSet (getT result.1) result.1 history
    statusEffect := result.2.2.2 }

/-- `step()`: fetch the instruction at the program counter (`EMPTY` when the
line is absent) and execute it. -/
def step (program : Prog) (pc : ℤ) (registers : Regs) (history : History) :
    StepResult :=
  execInstr (fetch program pc) program pc registers history

/-- The interpreter state held by the component: program store, registers,
program counter, history, and game status. -/
structure Session : Type where
  program : Prog
  registers : Regs
  pc : ℤ
  history : History
  gameStatus : GameStatus
deriving DecidableEq

/-- One press of the Step button.  The guard models the session controller's
rejection of stepping in a terminal state: the Step button carries
`disabled={gameStatus === "won" || gameStatus === "lost"}` and the auto-run
effect returns early unless the status is `"running"`, so `step` is never
invoked on a terminal session.  A `"waiting"` session transitions to
`"running"`, then one instruction executes; `setGameStatus` calls made by
DEFUSE/EXPLODE land in the final status. -/
def manualStep (s : Session) : Session :=
  if s.gameStatus = GameStatus.won ∨ s.gameStatus = GameStatus.lost then s
  else
    let status1 :=
      if s.gameStatus = GameStatus.waiting then GameStatus.running
      else s.gameStatus
    let out := step s.program s.pc s.registers s.history
    { program := out.program
      registers := out.registers
      pc := out.pc
      history := out.history
      gameStatus := out.statusEffect.getD status1 }

/-- `n` successive Step presses. -/
def stepN : ℕ → Session → Session
  | 0, s => s
  | n + 1, s => stepN n (manualStep s)

/-- A level definition: an ordered instruction list and the initial register
snapshot. -/
structure Level : Type where
  program : List Instr
  initialRegisters : Regs

/-- `resetGame(newA)`: rebuild the program store from the level, override
register `A` with the player's value, reset `pc` to 1, seed the history with
the initial snapshot at time key 0, and return to the `"waiting"` status. -/
def resetGame (level : Level) (newA : ℤ) : Session :=
  let initRegs := jsSet "A" newA level.initialRegisters
  { program := convertProgram level.program
    registers := initRegs
    pc := 1
    history := [((0 : ℤ), initRegs)]
    gameStatus := GameStatus.waiting }

end SparseVM

namespace FixedVM

/-!
The fixed-length-array variant (`src/BombGame.js`): the program is the
level's immutable instruction array, the program counter is 0-indexed, and
a program counter outside `[0, program.length)` is an immediate loss.
-/

/-- A raw (unresolved) line-number operand, as assigned by `newPC =
instr.args[0]` and the branch targets.  The source carries the operand value
itself; level data always uses numeric literals here, and a numeric string
would be coerced numerically at the next bounds check, which the integer
parse models. -/
def argLine : Arg → ℤ
  | .num n => n
  | .str s => (parseIntJs s).getD 0

/-- The state produced by one `step` of the fixed-array interpreter. -/
structure FixedResult : Type where
  registers : Regs
  pc : ℤ
  history : History
  statusEffect : Option GameStatus
deriving DecidableEq

/-- `step()` of `BombGame.js`: an out-of-bounds program counter sets the
status to `"lost"` and returns at once; otherwise `T` is incremented, the
opcode switch runs (note the direct `newRegisters[reg]` access in the
branch opcodes, and that DEFUSE/EXPLODE leave the default `newPC = pc + 1`
in place), and the new snapshot is committed to the history. -/
def step (program : List Instr) (pc : ℤ) (registers : Regs)
    (history : History) : FixedResult :=
  if pc < 0 ∨ pc ≥ (program.length : ℤ) then
    { registers := registers
      pc := pc
      history := history
      statusEffect := some GameStatus.lost }
  else
    let instr := (program.get? pc.toNat).getD EMPTYInstr
    let newT := getT registers + 1
    let newRegisters := jsSet "T" newT registers
    let newPC := pc + 1
    let result : Regs × ℤ × Option GameStatus :=
      if instr.op = "ADD" then
        let val1 := getValue (instr.args.getD 0 undefinedArg) newRegisters
        let val2 := getValue (instr.args.getD 1 undefinedArg) newRegisters
        let dest := argKey (instr.args.getD 2 undefinedArg)
        (jsSet dest (val1 + val2) newRegisters, newPC, none)
      else if instr.op = "JMP" then
        (newRegisters, argLine (instr.args.getD 0 undefinedArg), none)
      else if instr.op = "BEQ" then
        let reg := argKey (instr.args.getD 0 undefinedArg)
        let cmpVal := getValue (instr.args.getD 1 undefinedArg) newRegisters
        let target := argLine (instr.args.getD 2 undefinedArg)
        (newRegisters,
          match jsLookup reg newRegisters with
          | some v => if v = cmpVal then target else newPC
          | none => newPC, none)
      else if instr.op = "BNE" then
        let reg := argKey (instr.args.getD 0 undefinedArg)
        let cmpVal := getValue (instr.args.getD 1 undefinedArg) newRegisters
        let target := argLine (instr.args.getD 2 undefinedArg)
        (newRegisters,
          match jsLookup reg newRegisters with
          | some v => if v ≠ cmpVal then target else newPC
          | none => target, none)
      else if instr.op = "BGT" then
        let reg := argKey (instr.args.getD 0 undefinedArg)
        let cmpVal := getValue (instr.args.getD 1 undefinedArg) newRegisters
        let target := argLine (instr.args.getD 2 undefinedArg)
        (newRegisters,
          match jsLookup reg newRegisters with
          | some v => if v > cmpVal then target else newPC
          | none => newPC, none)
      else if instr.op = "BLT" then
        let reg := argKey (instr.args.getD 0 undefinedArg)
        let cmpVal := getValue (instr.args.getD 1 undefinedArg) newRegisters
        let target := argLine (instr.args.getD 2 undefinedArg)
        (newRegisters,
          match jsLookup reg newRegisters with
          | some v => if v < cmpVal then target else newPC
          | none => newPC, none)
      else if instr.op = "TTRAVEL" then
        let travelTime := getT newRegisters
        (match jsLookup travelTime history with
          | some snap => snap
          | none => newRegisters, newPC, none)
      else if instr.op = "DEFUSE" then
        (newRegisters, newPC, some GameStatus.won)
      else if instr.op = "EXPLODE" then
        (newRegisters, newPC, some GameStatus.lost)
      else
        (newRegisters, newPC, none)
    { registers := result.1
      pc := result.2.1
      history := jsSet (getT result.1) result.1 history
      statusEffect := result.2.2 }

end FixedVM

namespace SparseVM

/-! Helper characterizations of `execInstr`, one per observable component. -/

theorem exec_history_commit (instr : Instr) (prog : Prog) (pc : ℤ)
    (regs : Regs) (history : History) :
    (execInstr instr prog pc regs history).history =
      jsSet (getT (execInstr instr prog pc regs history).registers)
        (execInstr instr prog pc regs history).registers history := rfl

theorem exec_regs_default {instr : Instr} (prog : Prog) (pc : ℤ) (regs : Regs)
    (history : History) (hADD : instr.op ≠ "ADD") (hTT : instr.op ≠ "TTRAVEL") :
    (execInstr instr prog pc regs history).registers
      = jsSet "T" (getT regs + 1) regs := by
  simp only [execInstr, if_neg hADD, if_neg hTT]
  repeat' split
  all_goals rfl

theorem exec_regs_add_getT {instr : Instr} (prog : Prog) (pc : ℤ) (regs : Regs)
    (history : History) (hop : instr.op = "ADD")
    (hdest : argKey (instr.args.getD 2 undefinedArg) ≠ "T") :
    getT (execInstr instr prog pc regs history).registers = getT regs + 1 := by
  simp only [execInstr]
  rw [hop]
  simp only [if_pos rfl]
  simp only [String.reduceEq, if_false, or_false, if_true]
  rw [getT_set_ne hdest, getT_set_T]

theorem exec_regs_ttravel_found {instr : Instr} (prog : Prog) (pc : ℤ)
    {regs : Regs} {history : History} {snap : Regs}
    (hop : instr.op = "TTRAVEL")
    (hsnap : jsLookup (getT regs + 1) history = some snap) :
    (execInstr instr prog pc regs history).registers = snap := by
  simp only [execInstr]
  rw [hop]
  simp [getT_set_T, hsnap]

theorem exec_regs_ttravel_missing {instr : Instr} (prog : Prog) (pc : ℤ)
    {regs : Regs} (history : History)
    (hop : instr.op = "TTRAVEL")
    (hnone : jsLookup (getT regs + 1) history = none) :
    (execInstr instr prog pc regs history).registers
      = jsSet "T" (getT regs + 1) regs := by
  simp only [execInstr]
  rw [hop]
  simp [getT_set_T, hnone]

theorem exec_pc_terminal {instr : Instr} (prog : Prog) (pc : ℤ) (regs : Regs)
    (history : History)
    (hop : instr.op = "DEFUSE" ∨ instr.op = "EXPLODE") :
    (execInstr instr prog pc regs history).pc = pc := by
  cases hop with
  | inl h => simp only [execInstr]; rw [h]; simp
  | inr h => simp only [execInstr]; rw [h]; simp

theorem exec_pc_default {instr : Instr} (prog : Prog) (pc : ℤ) (regs : Regs)
    (history : History)
    (hD : instr.op ≠ "DEFUSE") (hE : instr.op ≠ "EXPLODE")
    (hJ : instr.op ≠ "JUMP") (hC : instr.op ≠ "CJUMP")
    (hCopy : instr.op ≠ "COPY") :
    (execInstr instr prog pc regs history).pc = pc + 1 := by
  have hterm : ¬(instr.op = "DEFUSE" ∨ instr.op = "EXPLODE") := by
    intro h; cases h with
    | inl h => exact hD h
    | inr h => exact hE h
  simp only [execInstr, if_neg hterm, if_neg hJ, if_neg hC, if_neg hCopy]
  repeat' split
  all_goals rfl

theorem exec_status_defuse {instr : Instr} (prog : Prog) (pc : ℤ) (regs : Regs)
    (history : History) (hop : instr.op = "DEFUSE") :
    (execInstr instr prog pc regs history).statusEffect
      = some GameStatus.won := by
  simp only [execInstr]
  rw [hop]
  simp

theorem exec_status_explode {instr : Instr} (prog : Prog) (pc : ℤ) (regs : Regs)
    (history : History) (hop : instr.op = "EXPLODE") :
    (execInstr instr prog pc regs history).statusEffect
      = some GameStatus.lost := by
  simp only [execInstr]
  rw [hop]
  simp

theorem exec_empty (prog : Prog) (pc : ℤ) (regs : Regs) (history : History) :
    execInstr EMPTYInstr prog pc regs history =
      { registers := jsSet "T" (getT regs + 1) regs
        pc := pc + 1
        program := prog
        history := jsSet (getT regs + 1) (jsSet "T" (getT regs + 1) regs) history
        statusEffect := none } := by
  simp [execInstr, EMPTYInstr, getT_set_T]

end SparseVM

/-- C9: the value resolver `getValue` is total (a Lean function into ℤ, so it
can never error): a numeric literal resolves to itself; a token that is an
existing register name resolves to that register's value, taking precedence
over numeric parsing; any other token is parsed as an integer via
`parseInt`, and an unparsable token resolves to 0. -/
theorem resolve_spec (n : ℤ) (s : String) (regs : Regs) :
    getValue (Arg.num n) regs = n
    ∧ (∀ v, jsLookup s regs = some v → getValue (Arg.str s) regs = v)
    ∧ (jsLookup s regs = none →
        getValue (Arg.str s) regs = (parseIntJs s).getD 0)
    ∧ (jsLookup s regs = none → parseIntJs s = none →
        getValue (Arg.str s) regs = 0) := by
  refine ⟨rfl, ?_, ?_, ?_⟩
  · intro v hv
    simp [getValue, hv]
  · intro h
    simp only [getValue, h]
    cases hp : parseIntJs s <;> simp [hp]
  · intro h hp
    simp [getValue, h, hp]

/-- Witness for C9 at concrete inputs: the literal `7`; the register token
`"A"` (which would also parse as a number-free token); the numeric-string
token `"12"`; and the unparsable token `"boom"`. -/
theorem resolve_spec_witness :
    getValue (Arg.num 7) [("A", (3 : ℤ))] = 7
    ∧ getValue (Arg.str "A") [("A", (3 : ℤ))] = 3
    ∧ getValue (Arg.str "12") [("A", (3 : ℤ))] = (parseIntJs "12").getD 0
    ∧ getValue (Arg.str "boom") [("A", (3 : ℤ))] = 0 :=
  ⟨(resolve_spec 7 "A" [("A", (3 : ℤ))]).1,
   (resolve_spec 7 "A" [("A", (3 : ℤ))]).2.1 3 (by decide),
   (resolve_spec 7 "12" [("A", (3 : ℤ))]).2.2.1 (by decide),
   (resolve_spec 7 "boom" [("A", (3 : ℤ))]).2.2.2 (by decide) (by decide)⟩

/-- C2 counterexample: executing `COPY (1, 3)` on the store `{1: ADD A,B,C}`
with `pc = 1` does NOT leave the program counter at 3: the compensation
rule fires only when `pc ≥ tgt`, and `1 ≥ 3` is false, so the post-step
`pc` is the plain default `pc + 1 = 2`. -/
theorem copy_scenario_counterexample :
    ¬ ((SparseVM.execInstr ⟨"COPY", [Arg.num 1, Arg.num 3]⟩
          [((1 : ℤ), ⟨"ADD", [Arg.str "A", Arg.str "B", Arg.str "C"]⟩)] 1
          [("A", (0 : ℤ)), ("B", 0), ("T", 0)]
          [((0 : ℤ), [("A", (0 : ℤ)), ("B", 0), ("T", 0)])]).pc = 3) := by
  decide

/-- C2 as amended: executing `COPY (1, 3)` on the store `{1: ADD A,B,C}` with
`pc = 1` yields a store holding the original `ADD A,B,C` at both lines 1
and 3, with no entry at line 2, and the post-step `pc` is `2` (the default
`pc + 1`; no compensation since `pc = 1 < tgt = 3`). -/
theorem copy_scenario_exact :
    jsLookup (1 : ℤ) (SparseVM.execInstr ⟨"COPY", [Arg.num 1, Arg.num 3]⟩
        [((1 : ℤ), ⟨"ADD", [Arg.str "A", Arg.str "B", Arg.str "C"]⟩)] 1
        [("A", (0 : ℤ)), ("B", 0), ("T", 0)]
        [((0 : ℤ), [("A", (0 : ℤ)), ("B", 0), ("T", 0)])]).program
      = some ⟨"ADD", [Arg.str "A", Arg.str "B", Arg.str "C"]⟩
    ∧ jsLookup (3 : ℤ) (SparseVM.execInstr ⟨"COPY", [Arg.num 1, Arg.num 3]⟩
        [((1 : ℤ), ⟨"ADD", [Arg.str "A", Arg.str "B", Arg.str "C"]⟩)] 1
        [("A", (0 : ℤ)), ("B", 0), ("T", 0)]
        [((0 : ℤ), [("A", (0 : ℤ)), ("B", 0), ("T", 0)])]).program
      = some ⟨"ADD", [Arg.str "A", Arg.str "B", Arg.str "C"]⟩
    ∧ jsLookup (2 : ℤ) (SparseVM.execInstr ⟨"COPY", [Arg.num 1, Arg.num 3]⟩
        [((1 : ℤ), ⟨"ADD", [Arg.str "A", Arg.str "B", Arg.str "C"]⟩)] 1
        [("A", (0 : ℤ)), ("B", 0), ("T", 0)]
        [((0 : ℤ), [("A", (0 : ℤ)), ("B", 0), ("T", 0)])]).program
      = none
    ∧ (SparseVM.execInstr ⟨"COPY", [Arg.num 1, Arg.num 3]⟩
        [((1 : ℤ), ⟨"ADD", [Arg.str "A", Arg.str "B", Arg.str "C"]⟩)] 1
        [("A", (0 : ℤ)), ("B", 0), ("T", 0)]
        [((0 : ℤ), [("A", (0 : ℤ)), ("B", 0), ("T", 0)])]).pc = 2 := by
  decide

/-- C6: when the fetched instruction is TTRAVEL, the returned snapshot is the
history entry at the post-increment time key `T + 1` if one exists, and
otherwise the input snapshot with only `T` incremented. -/
theorem ttravel_spec (prog : Prog) (pc : ℤ) (regs : Regs) (history : History)
    (hop : (SparseVM.fetch prog pc).op = "TTRAVEL") :
    (∀ snap, jsLookup (getT regs + 1) history = some snap →
      (SparseVM.step prog pc regs history).registers = snap)
    ∧ (jsLookup (getT regs + 1) history = none →
      (SparseVM.step prog pc regs history).registers
        = jsSet "T" (getT regs + 1) regs) := by
  constructor
  · intro snap hsnap
    exact SparseVM.exec_regs_ttravel_found prog pc hop hsnap
  · intro hnone
    exact SparseVM.exec_regs_ttravel_missing prog pc history hop hnone

/-- Witness for C6: a store with `TTRAVEL` at line 1, run once against a
history holding an entry at the post-increment time key 1, and once against
a history without one. -/
theorem ttravel_spec_witness :
    (SparseVM.step [((1 : ℤ), ⟨"TTRAVEL", []⟩)] 1 [("T", (0 : ℤ))]
        [((0 : ℤ), [("T", (0 : ℤ))]), ((1 : ℤ), [("T", (1 : ℤ)), ("B", 9)])]
      ).registers = [("T", (1 : ℤ)), ("B", 9)]
    ∧ (SparseVM.step [((1 : ℤ), ⟨"TTRAVEL", []⟩)] 1 [("T", (0 : ℤ))]
        [((0 : ℤ), [("T", (0 : ℤ))])]).registers
      = jsSet "T" (getT [("T", (0 : ℤ))] + 1) [("T", (0 : ℤ))] :=
  ⟨(ttravel_spec [((1 : ℤ), ⟨"TTRAVEL", []⟩)] 1 [("T", (0 : ℤ))]
      [((0 : ℤ), [("T", (0 : ℤ))]), ((1 : ℤ), [("T", (1 : ℤ)), ("B", 9)])]
      (by decide)).1 [("T", (1 : ℤ)), ("B", 9)] (by decide),
   (ttravel_spec [((1 : ℤ), ⟨"TTRAVEL", []⟩)] 1 [("T", (0 : ℤ))]
      [((0 : ℤ), [("T", (0 : ℤ))])] (by decide)).2 (by decide)⟩

/-- C5 counterexample: `ADD` with destination register `T` overwrites the
time register, so a non-TTRAVEL step need not return `T + 1`.  On the store
`{1: ADD 1,2,T}` with input `T = 0` the returned `T` is `3`, not `1`. -/
theorem t_increment_counterexample :
    (SparseVM.fetch [((1 : ℤ), ⟨"ADD", [Arg.num 1, Arg.num 2, Arg.str "T"]⟩)]
        1).op ≠ "TTRAVEL"
    ∧ getT (SparseVM.step
          [((1 : ℤ), ⟨"ADD", [Arg.num 1, Arg.num 2, Arg.str "T"]⟩)] 1
          [("A", (0 : ℤ)), ("T", 0)]
          [((0 : ℤ), [("A", (0 : ℤ)), ("T", 0)])]).registers
        ≠ getT [("A", (0 : ℤ)), ("T", 0)] + 1 := by
  decide

/-- C5 as amended: the `T` register of the returned snapshot equals the input
`T` plus 1 for every opcode except that (a) TTRAVEL may instead return an
entire previously recorded snapshot, and (b) ADD whose destination operand
names the register `T` overwrites `T` with the computed sum. -/
theorem t_increment_spec (prog : Prog) (pc : ℤ) (regs : Regs)
    (history : History) :
    ((SparseVM.fetch prog pc).op ≠ "TTRAVEL" →
      ¬((SparseVM.fetch prog pc).op = "ADD"
          ∧ argKey ((SparseVM.fetch prog pc).args.getD 2 undefinedArg) = "T") →
      getT (SparseVM.step prog pc regs history).registers = getT regs + 1)
    ∧ ((SparseVM.fetch prog pc).op = "TTRAVEL" →
      getT (SparseVM.step prog pc regs history).registers = getT regs + 1
      ∨ ∃ t snap, jsLookup t history = some snap
          ∧ (SparseVM.step prog pc regs history).registers = snap) := by
  constructor
  · intro hTT hAT
    by_cases hADD : (SparseVM.fetch prog pc).op = "ADD"
    · have hdest :
          argKey ((SparseVM.fetch prog pc).args.getD 2 undefinedArg) ≠ "T" :=
        fun h => hAT ⟨hADD, h⟩
      exact SparseVM.exec_regs_add_getT prog pc regs history hADD hdest
    · rw [SparseVM.step,
        SparseVM.exec_regs_default prog pc regs history hADD hTT, getT_set_T]
  · intro hTT
    cases hsnap : jsLookup (getT regs + 1) history with
    | none =>
        left
        rw [SparseVM.step,
          SparseVM.exec_regs_ttravel_missing prog pc history hTT hsnap,
          getT_set_T]
    | some snap =>
        right
        exact ⟨getT regs + 1, snap, hsnap,
          SparseVM.exec_regs_ttravel_found prog pc hTT hsnap⟩

/-- Witness for C5 as amended: a `JUMP` step increments `T` by one, and a
`TTRAVEL` step on an empty-at-key history also increments `T` by one. -/
theorem t_increment_spec_witness :
    getT (SparseVM.step [((1 : ℤ), ⟨"JUMP", [Arg.num 9]⟩)] 1
        [("T", (4 : ℤ))] [((0 : ℤ), [("T", (4 : ℤ))])]).registers
      = getT [("T", (4 : ℤ))] + 1
    ∧ (getT (SparseVM.step [((1 : ℤ), ⟨"TTRAVEL", []⟩)] 1
          [("T", (4 : ℤ))] [((0 : ℤ), [("T", (4 : ℤ))])]).registers
        = getT [("T", (4 : ℤ))] + 1
      ∨ ∃ t snap, jsLookup t [((0 : ℤ), [("T", (4 : ℤ))])] = some snap
          ∧ (SparseVM.step [((1 : ℤ), ⟨"TTRAVEL", []⟩)] 1
              [("T", (4 : ℤ))] [((0 : ℤ), [("T", (4 : ℤ))])]).registers
            = snap) :=
  ⟨(t_increment_spec [((1 : ℤ), ⟨"JUMP", [Arg.num 9]⟩)] 1
      [("T", (4 : ℤ))] [((0 : ℤ), [("T", (4 : ℤ))])]).1
      (by decide) (by decide),
   (t_increment_spec [((1 : ℤ), ⟨"TTRAVEL", []⟩)] 1
      [("T", (4 : ℤ))] [((0 : ℤ), [("T", (4 : ℤ))])]).2 (by decide)⟩

namespace FixedVM

theorem step_pc_terminal (program : List Instr) (pc : ℤ) (regs : Regs)
    (history : History)
    (hin : ¬(pc < 0 ∨ pc ≥ (program.length : ℤ)))
    (hop : ((program.get? pc.toNat).getD EMPTYInstr).op = "DEFUSE"
      ∨ ((program.get? pc.toNat).getD EMPTYInstr).op = "EXPLODE") :
    (step program pc regs history).pc = pc + 1 := by
  cases hop with
  | inl h => simp only [step, if_neg hin]; rw [h]; simp
  | inr h => simp only [step, if_neg hin]; rw [h]; simp

end FixedVM

/-- C3 counterexample: in the fixed-array variant (`BombGame.js`) the DEFUSE
case never reassigns `newPC`, so a step executing DEFUSE advances the
program counter to `pc + 1` instead of holding it at `pc`. -/
theorem terminal_pc_counterexample :
    ¬ ((FixedVM.step [⟨"DEFUSE", []⟩] 0 [("A", (0 : ℤ)), ("T", 0)]
          [((0 : ℤ), [("A", (0 : ℤ)), ("T", 0)])]).pc = 0) := by
  decide

/-- C3 as amended: in the sparse-line-map variant DEFUSE and EXPLODE hold
`pc' = pc` while every opcode other than the jumps and COPY defaults to
`pc' = pc + 1`; in the fixed-array variant DEFUSE and EXPLODE fall through
to the default and advance `pc' = pc + 1` like any non-jump opcode. -/
theorem terminal_pc_policy (prog : Prog) (pc : ℤ) (regs : Regs)
    (history : History) (program : List Instr) (pcf : ℤ) :
    ((SparseVM.fetch prog pc).op = "DEFUSE"
        ∨ (SparseVM.fetch prog pc).op = "EXPLODE" →
      (SparseVM.step prog pc regs history).pc = pc)
    ∧ ((SparseVM.fetch prog pc).op ≠ "DEFUSE" →
        (SparseVM.fetch prog pc).op ≠ "EXPLODE" →
        (SparseVM.fetch prog pc).op ≠ "JUMP" →
        (SparseVM.fetch prog pc).op ≠ "CJUMP" →
        (SparseVM.fetch prog pc).op ≠ "COPY" →
      (SparseVM.step prog pc regs history).pc = pc + 1)
    ∧ (¬(pcf < 0 ∨ pcf ≥ (program.length : ℤ)) →
        ((program.get? pcf.toNat).getD EMPTYInstr).op = "DEFUSE"
          ∨ ((program.get? pcf.toNat).getD EMPTYInstr).op = "EXPLODE" →
      (FixedVM.step program pcf regs history).pc = pcf + 1) := by
  refine ⟨?_, ?_, ?_⟩
  · intro hop
    exact SparseVM.exec_pc_terminal prog pc regs history hop
  · intro hD hE hJ hC hCopy
    exact SparseVM.exec_pc_default prog pc regs history hD hE hJ hC hCopy
  · intro hin hop
    exact FixedVM.step_pc_terminal program pcf regs history hin hop

/-- Witness for C3 as amended: a sparse DEFUSE step holds the pc, a sparse
EMPTY step advances it, and a fixed-array EXPLODE step advances it. -/
theorem terminal_pc_policy_witness :
    (SparseVM.step [((1 : ℤ), ⟨"DEFUSE", []⟩)] 1 [("T", (0 : ℤ))]
        [((0 : ℤ), [("T", (0 : ℤ))])]).pc = 1
    ∧ (SparseVM.step [((1 : ℤ), ⟨"EMPTY", []⟩)] 1 [("T", (0 : ℤ))]
        [((0 : ℤ), [("T", (0 : ℤ))])]).pc = 1 + 1
    ∧ (FixedVM.step [⟨"EXPLODE", []⟩] 0 [("T", (0 : ℤ))]
        [((0 : ℤ), [("T", (0 : ℤ))])]).pc = 0 + 1 :=
  ⟨(terminal_pc_policy [((1 : ℤ), ⟨"DEFUSE", []⟩)] 1 [("T", (0 : ℤ))]
      [((0 : ℤ), [("T", (0 : ℤ))])] [⟨"EXPLODE", []⟩] 0).1 (by decide),
   (terminal_pc_policy [((1 : ℤ), ⟨"EMPTY", []⟩)] 1 [("T", (0 : ℤ))]
      [((0 : ℤ), [("T", (0 : ℤ))])] [⟨"EXPLODE", []⟩] 0).2.1
      (by decide) (by decide) (by decide) (by decide) (by decide),
   (terminal_pc_policy [((1 : ℤ), ⟨"EMPTY", []⟩)] 1 [("T", (0 : ℤ))]
      [((0 : ℤ), [("T", (0 : ℤ))])] [⟨"EXPLODE", []⟩] 0).2.2
      (by decide) (by decide)⟩

/-- C7: a program counter with no entry is never an execution error.  In the
sparse-line-map variant the fetch yields the synthetic EMPTY instruction and
the run continues: `pc` advances, `T` increments, the store is untouched and
no status change is requested.  In the fixed-length-array variant a `pc`
outside `[0, program.length)` immediately requests the `lost` status (and
changes nothing else). -/
theorem oob_pc_spec (prog : Prog) (pc : ℤ) (regs : Regs) (history : History)
    (program : List Instr) (pcf : ℤ) :
    (jsLookup pc prog = none →
      (SparseVM.step prog pc regs history).pc = pc + 1
      ∧ getT (SparseVM.step prog pc regs history).registers = getT regs + 1
      ∧ (SparseVM.step prog pc regs history).program = prog
      ∧ (SparseVM.step prog pc regs history).statusEffect = none)
    ∧ (pcf < 0 ∨ pcf ≥ (program.length : ℤ) →
      (FixedVM.step program pcf regs history).statusEffect
          = some GameStatus.lost
      ∧ (FixedVM.step program pcf regs history).registers = regs
      ∧ (FixedVM.step program pcf regs history).pc = pcf
      ∧ (FixedVM.step program pcf regs history).history = history) := by
  constructor
  · intro hnone
    have hfetch : SparseVM.fetch prog pc = EMPTYInstr := by
      simp [SparseVM.fetch, hnone]
    rw [SparseVM.step, hfetch, SparseVM.exec_empty]
    exact ⟨rfl, getT_set_T _ _, rfl, rfl⟩
  · intro hoob
    rw [FixedVM.step, if_pos hoob]
    exact ⟨rfl, rfl, rfl, rfl⟩

/-- Witness for C7: a sparse step at the missing line 7 of `{1: DEFUSE}`
continues as an EMPTY no-op, and a fixed-array step at `pc = 2` of a
1-instruction program is an immediate loss. -/
theorem oob_pc_spec_witness :
    ((SparseVM.step [((1 : ℤ), ⟨"DEFUSE", []⟩)] 7 [("T", (0 : ℤ))]
        [((0 : ℤ), [("T", (0 : ℤ))])]).pc = 7 + 1
      ∧ getT (SparseVM.step [((1 : ℤ), ⟨"DEFUSE", []⟩)] 7 [("T", (0 : ℤ))]
          [((0 : ℤ), [("T", (0 : ℤ))])]).registers = getT [("T", (0 : ℤ))] + 1
      ∧ (SparseVM.step [((1 : ℤ), ⟨"DEFUSE", []⟩)] 7 [("T", (0 : ℤ))]
          [((0 : ℤ), [("T", (0 : ℤ))])]).program = [((1 : ℤ), ⟨"DEFUSE", []⟩)]
      ∧ (SparseVM.step [((1 : ℤ), ⟨"DEFUSE", []⟩)] 7 [("T", (0 : ℤ))]
          [((0 : ℤ), [("T", (0 : ℤ))])]).statusEffect = none)
    ∧ ((FixedVM.step [⟨"DEFUSE", []⟩] 2 [("T", (0 : ℤ))]
          [((0 : ℤ), [("T", (0 : ℤ))])]).statusEffect = some GameStatus.lost
      ∧ (FixedVM.step [⟨"DEFUSE", []⟩] 2 [("T", (0 : ℤ))]
          [((0 : ℤ), [("T", (0 : ℤ))])]).registers = [("T", (0 : ℤ))]
      ∧ (FixedVM.step [⟨"DEFUSE", []⟩] 2 [("T", (0 : ℤ))]
          [((0 : ℤ), [("T", (0 : ℤ))])]).pc = 2
      ∧ (FixedVM.step [⟨"DEFUSE", []⟩] 2 [("T", (0 : ℤ))]
          [((0 : ℤ), [("T", (0 : ℤ))])]).history
        = [((0 : ℤ), [("T", (0 : ℤ))])]) :=
  ⟨(oob_pc_spec [((1 : ℤ), ⟨"DEFUSE", []⟩)] 7 [("T", (0 : ℤ))]
      [((0 : ℤ), [("T", (0 : ℤ))])] [⟨"DEFUSE", []⟩] 2).1 (by decide),
   (oob_pc_spec [((1 : ℤ), ⟨"DEFUSE", []⟩)] 7 [("T", (0 : ℤ))]
      [((0 : ℤ), [("T", (0 : ℤ))])] [⟨"DEFUSE", []⟩] 2).2 (by decide)⟩

/-- C4: on a non-terminal session, executing DEFUSE sets the status to `won`
and executing EXPLODE sets it to `lost`; once the status is `won` or `lost`
the session controller rejects stepping, so a step is the identity on the
whole session state and the status never changes again — any number of
subsequent Step presses leaves the session untouched. -/
theorem terminal_status_spec (s : SparseVM.Session) :
    (s.gameStatus ≠ GameStatus.won → s.gameStatus ≠ GameStatus.lost →
      (SparseVM.fetch s.program s.pc).op = "DEFUSE" →
      (SparseVM.manualStep s).gameStatus = GameStatus.won)
    ∧ (s.gameStatus ≠ GameStatus.won → s.gameStatus ≠ GameStatus.lost →
      (SparseVM.fetch s.program s.pc).op = "EXPLODE" →
      (SparseVM.manualStep s).gameStatus = GameStatus.lost)
    ∧ (s.gameStatus = GameStatus.won ∨ s.gameStatus = GameStatus.lost →
      SparseVM.manualStep s = s)
    ∧ (s.gameStatus = GameStatus.won ∨ s.gameStatus = GameStatus.lost →
      ∀ n, SparseVM.stepN n s = s) := by
  have hguard : ∀ h : s.gameStatus = GameStatus.won
      ∨ s.gameStatus = GameStatus.lost, SparseVM.manualStep s = s := by
    intro h
    rw [SparseVM.manualStep, if_pos h]
  refine ⟨?_, ?_, hguard, ?_⟩
  · intro hw hl hop
    rw [SparseVM.manualStep, if_neg (by
      intro h; cases h with
      | inl h => exact hw h
      | inr h => exact hl h)]
    simp only [SparseVM.step]
    rw [SparseVM.exec_status_defuse s.program s.pc s.registers s.history hop]
    rfl
  · intro hw hl hop
    rw [SparseVM.manualStep, if_neg (by
      intro h; cases h with
      | inl h => exact hw h
      | inr h => exact hl h)]
    simp only [SparseVM.step]
    rw [SparseVM.exec_status_explode s.program s.pc s.registers s.history hop]
    rfl
  · intro h n
    induction n with
    | zero => rfl
    | succ m ih =>
        rw [SparseVM.stepN, hguard h, ih]

/-- Witness for C4: a running session at a DEFUSE line wins, a running
session at an EXPLODE line loses, and a won session is left untouched by
any number of further Step presses. -/
theorem terminal_status_spec_witness :
    (SparseVM.manualStep ⟨[((1 : ℤ), ⟨"DEFUSE", []⟩)], [("T", (0 : ℤ))], 1,
        [((0 : ℤ), [("T", (0 : ℤ))])], GameStatus.running⟩).gameStatus
      = GameStatus.won
    ∧ (SparseVM.manualStep ⟨[((1 : ℤ), ⟨"EXPLODE", []⟩)], [("T", (0 : ℤ))], 1,
        [((0 : ℤ), [("T", (0 : ℤ))])], GameStatus.running⟩).gameStatus
      = GameStatus.lost
    ∧ SparseVM.manualStep ⟨[((1 : ℤ), ⟨"EXPLODE", []⟩)], [("T", (0 : ℤ))], 1,
        [((0 : ℤ), [("T", (0 : ℤ))])], GameStatus.won⟩
      = ⟨[((1 : ℤ), ⟨"EXPLODE", []⟩)], [("T", (0 : ℤ))], 1,
        [((0 : ℤ), [("T", (0 : ℤ))])], GameStatus.won⟩
    ∧ SparseVM.stepN 5 ⟨[((1 : ℤ), ⟨"EXPLODE", []⟩)], [("T", (0 : ℤ))], 1,
        [((0 : ℤ), [("T", (0 : ℤ))])], GameStatus.won⟩
      = ⟨[((1 : ℤ), ⟨"EXPLODE", []⟩)], [("T", (0 : ℤ))], 1,
        [((0 : ℤ), [("T", (0 : ℤ))])], GameStatus.won⟩ :=
  ⟨(terminal_status_spec ⟨[((1 : ℤ), ⟨"DEFUSE", []⟩)], [("T", (0 : ℤ))], 1,
      [((0 : ℤ), [("T", (0 : ℤ))])], GameStatus.running⟩).1
      (by decide) (by decide) (by decide),
   (terminal_status_spec ⟨[((1 : ℤ), ⟨"EXPLODE", []⟩)], [("T", (0 : ℤ))], 1,
      [((0 : ℤ), [("T", (0 : ℤ))])], GameStatus.running⟩).2.1
      (by decide) (by decide) (by decide),
   (terminal_status_spec ⟨[((1 : ℤ), ⟨"EXPLODE", []⟩)], [("T", (0 : ℤ))], 1,
      [((0 : ℤ), [("T", (0 : ℤ))])], GameStatus.won⟩).2.2.1 (Or.inl rfl),
   (terminal_status_spec ⟨[((1 : ℤ), ⟨"EXPLODE", []⟩)], [("T", (0 : ℤ))], 1,
      [((0 : ℤ), [("T", (0 : ℤ))])], GameStatus.won⟩).2.2.2 (Or.inl rfl) 5⟩

/-- Every history entry is keyed by its own snapshot's `T` value. -/
def HistoryKeyed (history : History) : Prop :=
  ∀ t snap, jsLookup t history = some snap → getT snap = t

namespace SparseVM

theorem historyKeyed_commit {history : History} (hinv : HistoryKeyed history)
    (r : Regs) : HistoryKeyed (jsSet (getT r) r history) := by
  intro t snap hl
  by_cases ht : t = getT r
  · subst ht
    rw [jsLookup_set_self] at hl
    cases hl
    rfl
  · rw [jsLookup_set_ne ht r history] at hl
    exact hinv t snap hl

theorem historyKeyed_manualStep {s : Session} (hinv : HistoryKeyed s.history) :
    HistoryKeyed (manualStep s).history := by
  rw [manualStep]
  by_cases hg : s.gameStatus = GameStatus.won
      ∨ s.gameStatus = GameStatus.lost
  · rw [if_pos hg]
    exact hinv
  · rw [if_neg hg]
    show HistoryKeyed (step s.program s.pc s.registers s.history).history
    rw [step, exec_history_commit]
    exact historyKeyed_commit hinv _

theorem historyKeyed_stepN {s : Session} (hinv : HistoryKeyed s.history)
    (n : ℕ) : HistoryKeyed (stepN n s).history := by
  induction n generalizing s with
  | zero => exact hinv
  | succ m ih =>
      rw [stepN]
      exact ih (historyKeyed_manualStep hinv)

theorem historyKeyed_resetGame (level : Level) (newA : ℤ)
    (hT : getT level.initialRegisters = 0) :
    HistoryKeyed (resetGame level newA).history := by
  intro t snap hl
  rw [resetGame] at hl
  rw [jsLookup_singleton] at hl
  by_cases ht : (0 : ℤ) = t
  · rw [if_pos ht] at hl
    cases hl
    rw [getT_set_ne (by decide) newA level.initialRegisters, hT]
    exact ht
  · rw [if_neg ht] at hl
    cases hl

end SparseVM

/-- C10: in every history map reachable from a fresh session (whose level,
per the data model, starts the reserved register `T` at 0) by Step presses,
each entry is stored under its own `T` value; consequently a TTRAVEL step
against such a history always returns a snapshot whose `T` is the pre-step
`T` plus 1 — TTRAVEL rewinds the other registers but never `T` itself. -/
theorem history_key_invariant_spec (level : SparseVM.Level) (newA : ℤ)
    (n : ℕ) (hT : getT level.initialRegisters = 0) :
    HistoryKeyed (SparseVM.stepN n (SparseVM.resetGame level newA)).history
    ∧ ∀ (prog : Prog) (pc : ℤ) (regs : Regs) (history : History),
        HistoryKeyed history →
        (SparseVM.fetch prog pc).op = "TTRAVEL" →
        getT (SparseVM.step prog pc regs history).registers
          = getT regs + 1 := by
  constructor
  · exact SparseVM.historyKeyed_stepN
      (SparseVM.historyKeyed_resetGame level newA hT) n
  · intro prog pc regs history hinv hop
    cases hsnap : jsLookup (getT regs + 1) history with
    | none =>
        rw [SparseVM.step,
          SparseVM.exec_regs_ttravel_missing prog pc history hop hsnap,
          getT_set_T]
    | some snap =>
        rw [SparseVM.step,
          SparseVM.exec_regs_ttravel_found prog pc hop hsnap]
        exact hinv (getT regs + 1) snap hsnap

/-- Witness for C10: the tutorial-style level run for three Step presses,
and a TTRAVEL step against a correctly keyed history that rewinds `B` but
still returns `T = 5`. -/
theorem history_key_invariant_spec_witness :
    HistoryKeyed (SparseVM.stepN 3 (SparseVM.resetGame
        ⟨[⟨"CJUMP", [Arg.str "A", Arg.str "=", Arg.num 5, Arg.num 3]⟩,
          ⟨"EXPLODE", []⟩, ⟨"DEFUSE", []⟩],
        [("A", (0 : ℤ)), ("T", 0)]⟩ 5)).history
    ∧ getT (SparseVM.step [((1 : ℤ), ⟨"TTRAVEL", []⟩)] 1
        [("T", (4 : ℤ)), ("B", 8)]
        [((0 : ℤ), [("T", (0 : ℤ)), ("B", 1)]),
          ((5 : ℤ), [("T", (5 : ℤ)), ("B", 2)])]).registers
      = getT [("T", (4 : ℤ)), ("B", 8)] + 1 :=
  ⟨(history_key_invariant_spec
      ⟨[⟨"CJUMP", [Arg.str "A", Arg.str "=", Arg.num 5, Arg.num 3]⟩,
        ⟨"EXPLODE", []⟩, ⟨"DEFUSE", []⟩],
      [("A", (0 : ℤ)), ("T", 0)]⟩ 5 3 (by decide)).1,
   (history_key_invariant_spec
      ⟨[⟨"CJUMP", [Arg.str "A", Arg.str "=", Arg.num 5, Arg.num 3]⟩,
        ⟨"EXPLODE", []⟩, ⟨"DEFUSE", []⟩],
      [("A", (0 : ℤ)), ("T", 0)]⟩ 5 3 (by decide)).2
      [((1 : ℤ), ⟨"TTRAVEL", []⟩)] 1 [("T", (4 : ℤ)), ("B", 8)]
      [((0 : ℤ), [("T", (0 : ℤ)), ("B", 1)]),
        ((5 : ℤ), [("T", (5 : ℤ)), ("B", 2)])]
      (by
        intro t snap hl
        rw [jsLookup] at hl
        by_cases h0 : (0 : ℤ) = t
        · rw [if_pos h0] at hl
          cases hl
          exact h0
        · rw [if_neg h0, jsLookup_singleton] at hl
          by_cases h5 : (5 : ℤ) = t
          · rw [if_pos h5] at hl
            cases hl
            exact h5
          · rw [if_neg h5] at hl
            cases hl)
      (by decide)⟩

namespace SparseVM

/-! Lemmas about `insertLine`: the shift map is injective and never hits the
target line, so the re-keying fold is a bijective re-addressing. -/

theorem shiftKey_inj {t a b : ℤ} (h : shiftKey t a = shiftKey t b) : a = b := by
  unfold shiftKey at h
  split_ifs at h <;> omega

theorem shiftKey_ne_target (t k : ℤ) : shiftKey t k ≠ t := by
  unfold shiftKey
  split_ifs <;> omega

theorem sortedKeys_perm (prog : Prog) :
    (sortedKeys prog).Perm (prog.map Prod.fst) :=
  List.perm_insertionSort _ _

theorem mem_sortedKeys {prog : Prog} {k : ℤ} :
    k ∈ sortedKeys prog ↔ k ∈ prog.map Prod.fst :=
  (sortedKeys_perm prog).mem_iff

theorem insert_foldl_lookup_none (prog : Prog) (target : ℤ) {x : ℤ} :
    ∀ (keys : List ℤ) (acc : Prog), (∀ k ∈ keys, shiftKey target k ≠ x) →
      jsLookup x (keys.foldl (fun acc key =>
        match jsLookup key prog with
        | some v => jsSet (shiftKey target key) v acc
        | none => acc) acc) = jsLookup x acc := by
  intro keys
  induction keys with
  | nil => intro acc _; rfl
  | cons j rest ih =>
      intro acc h
      rw [List.foldl_cons]
      cases hj : jsLookup j prog with
      | none =>
          simp only [hj]
          exact ih _ (fun k hk => h k (List.mem_cons_of_mem _ hk))
      | some v =>
          simp only [hj]
          rw [ih _ (fun k hk => h k (List.mem_cons_of_mem _ hk))]
          exact jsLookup_set_ne (Ne.symm (h j (List.mem_cons_self j rest))) v acc

theorem insert_foldl_lookup_mem (prog : Prog) (target : ℤ) :
    ∀ (keys : List ℤ) (acc : Prog) (k : ℤ) (v : Instr), keys.Nodup →
      k ∈ keys → jsLookup k prog = some v →
      jsLookup (shiftKey target k) (keys.foldl (fun acc key =>
        match jsLookup key prog with
        | some v => jsSet (shiftKey target key) v acc
        | none => acc) acc) = some v := by
  intro keys
  induction keys with
  | nil => intro acc k v _ hk; cases hk
  | cons j rest ih =>
      intro acc k v hnd hk hv
      rw [List.foldl_cons]
      rcases List.mem_cons.mp hk with rfl | hkrest
      · simp only [hv]
        have hfresh : ∀ m ∈ rest, shiftKey target m ≠ shiftKey target k := by
          intro m hm heq
          have hmk : m = k := shiftKey_inj heq
          subst hmk
          exact (List.nodup_cons.mp hnd).1 hm
        rw [insert_foldl_lookup_none prog target rest _ hfresh]
        exact jsLookup_set_self _ v acc
      · cases hj : jsLookup j prog with
        | none =>
            simp only [hj]
            exact ih _ k v (List.nodup_cons.mp hnd).2 hkrest hv
        | some w =>
            simp only [hj]
            exact ih _ k v (List.nodup_cons.mp hnd).2 hkrest hv

theorem insert_foldl_length (prog : Prog) (target : ℤ) :
    ∀ (keys : List ℤ) (acc : Prog), keys.Nodup →
      (∀ k ∈ keys, (jsLookup k prog).isSome) →
      (∀ k ∈ keys, jsLookup (shiftKey target k) acc = none) →
      (keys.foldl (fun acc key =>
        match jsLookup key prog with
        | some v => jsSet (shiftKey target key) v acc
        | none => acc) acc).length = acc.length + keys.length := by
  intro keys
  induction keys with
  | nil => intro acc _ _ _; rfl
  | cons j rest ih =>
      intro acc hnd hsome hfresh
      rw [List.foldl_cons]
      obtain ⟨v, hv⟩ := Option.isSome_iff_exists.mp
        (hsome j (List.mem_cons_self j rest))
      simp only [hv]
      have hrest := ih (jsSet (shiftKey target j) v acc)
        (List.nodup_cons.mp hnd).2
        (fun k hk => hsome k (List.mem_cons_of_mem _ hk))
        (by
          intro m hm
          have hne : shiftKey target m ≠ shiftKey target j := by
            intro heq
            have hmj : m = j := shiftKey_inj heq
            subst hmj
            exact (List.nodup_cons.mp hnd).1 hm
          rw [jsLookup_set_ne hne v acc]
          exact hfresh m (List.mem_cons_of_mem _ hm))
      rw [hrest, jsSet_length_of_none (hfresh j (List.mem_cons_self j rest)) v]
      simp only [List.length_cons]
      omega

/-- Closed form of `insertLine` on lookups, for any store with distinct
keys: the target line holds the new instruction, lines above the target
show the old line one below, lines below the target are unchanged. -/
theorem insertLine_lookup {prog : Prog} (hnd : NodupKeys prog) (target : ℤ)
    (i : Instr) (x : ℤ) :
    jsLookup x (insertLine prog target i) =
      if x = target then some i
      else if target < x then jsLookup (x - 1) prog
      else jsLookup x prog := by
  have hkeysnd : (sortedKeys prog).Nodup :=
    (sortedKeys_perm prog).nodup_iff.mpr hnd
  simp only [insertLine]
  by_cases hx : x = target
  · subst hx
    rw [jsLookup_set_self, if_pos rfl]
  · rw [jsLookup_set_ne hx i _, if_neg hx]
    by_cases hlt : target < x
    · rw [if_pos hlt]
      by_cases hmem : (x - 1) ∈ prog.map Prod.fst
      · obtain ⟨v, hv⟩ := Option.isSome_iff_exists.mp
          ((jsLookup_isSome_iff_mem_keys (x - 1) prog).mpr hmem)
        have hshift : shiftKey target (x - 1) = x := by
          unfold shiftKey
          rw [if_pos (by omega)]
          omega
        rw [hv, ← hshift]
        exact insert_foldl_lookup_mem prog target (sortedKeys prog) [] (x - 1)
          v hkeysnd (mem_sortedKeys.mpr hmem) hv
      · rw [jsLookup_eq_none_of_not_mem_keys hmem]
        rw [insert_foldl_lookup_none prog target (sortedKeys prog) [] (by
          intro k hk heq
          unfold shiftKey at heq
          split_ifs at heq
          · exact hmem (by
              rw [show x - 1 = k by omega]
              exact mem_sortedKeys.mp hk)
          · omega)]
        rfl
    · rw [if_neg hlt]
      by_cases hmem : x ∈ prog.map Prod.fst
      · obtain ⟨v, hv⟩ := Option.isSome_iff_exists.mp
          ((jsLookup_isSome_iff_mem_keys x prog).mpr hmem)
        have hshift : shiftKey target x = x := by
          unfold shiftKey
          rw [if_neg (by omega)]
        rw [hv, ← hshift]
        exact insert_foldl_lookup_mem prog target (sortedKeys prog) [] x v
          hkeysnd (mem_sortedKeys.mpr hmem) hv
      · rw [jsLookup_eq_none_of_not_mem_keys hmem]
        rw [insert_foldl_lookup_none prog target (sortedKeys prog) [] (by
          intro k hk heq
          unfold shiftKey at heq
          split_ifs at heq
          · omega
          · exact hmem (heq ▸ mem_sortedKeys.mp hk))]
        rfl

/-- `insertLine` adds exactly one entry to a store with distinct keys. -/
theorem insertLine_length {prog : Prog} (hnd : NodupKeys prog) (target : ℤ)
    (i : Instr) :
    (insertLine prog target i).length = prog.length + 1 := by
  have hkeysnd : (sortedKeys prog).Nodup :=
    (sortedKeys_perm prog).nodup_iff.mpr hnd
  simp only [insertLine]
  have hfold_len := insert_foldl_length prog target (sortedKeys prog) []
    hkeysnd
    (fun k hk => (jsLookup_isSome_iff_mem_keys k prog).mpr
      (mem_sortedKeys.mp hk))
    (fun _ _ => rfl)
  have hfresh : jsLookup target ((sortedKeys prog).foldl (fun acc key =>
      match jsLookup key prog with
      | some v => jsSet (shiftKey target key) v acc
      | none => acc) []) = none := by
    rw [insert_foldl_lookup_none prog target (sortedKeys prog) []
      (fun k _ => shiftKey_ne_target target k)]
    rfl
  rw [jsSet_length_of_none hfresh i, hfold_len]
  simp only [List.length_nil, Nat.zero_add]
  rw [(sortedKeys_perm prog).length_eq, List.length_map]

end SparseVM

/-- C1: for every program store `S` with distinct line numbers, target `t`
and instruction `i`, the store `insertLine S t i` maps `t` to `i`, maps
`k + 1` to `S[k]` for every original key `k ≥ t`, maps every original key
`k < t` unchanged to `S[k]`, contains no other entries, and holds exactly
one entry more than `S`. -/
theorem insertAt_spec (S : Prog) (t : ℤ) (i : Instr) (hnd : NodupKeys S) :
    jsLookup t (SparseVM.insertLine S t i) = some i
    ∧ (∀ k v, t ≤ k → jsLookup k S = some v →
        jsLookup (k + 1) (SparseVM.insertLine S t i) = some v)
    ∧ (∀ k v, k < t → jsLookup k S = some v →
        jsLookup k (SparseVM.insertLine S t i) = some v)
    ∧ (∀ l v, jsLookup l (SparseVM.insertLine S t i) = some v →
        (l = t ∧ v = i)
        ∨ ∃ k, jsLookup k S = some v
            ∧ ((t ≤ k ∧ l = k + 1) ∨ (k < t ∧ l = k)))
    ∧ (SparseVM.insertLine S t i).length = S.length + 1 := by
  refine ⟨?_, ?_, ?_, ?_, SparseVM.insertLine_length hnd t i⟩
  · rw [SparseVM.insertLine_lookup hnd t i t, if_pos rfl]
  · intro k v hk hv
    rw [SparseVM.insertLine_lookup hnd t i (k + 1),
      if_neg (by omega), if_pos (by omega),
      show k + 1 - 1 = k by omega]
    exact hv
  · intro k v hk hv
    rw [SparseVM.insertLine_lookup hnd t i k,
      if_neg (by omega), if_neg (by omega)]
    exact hv
  · intro l v hl
    rw [SparseVM.insertLine_lookup hnd t i l] at hl
    by_cases hlt : l = t
    · rw [if_pos hlt] at hl
      cases hl
      exact Or.inl ⟨hlt, rfl⟩
    · rw [if_neg hlt] at hl
      by_cases hgt : t < l
      · rw [if_pos hgt] at hl
        exact Or.inr ⟨l - 1, hl, Or.inl ⟨by omega, by omega⟩⟩
      · rw [if_neg hgt] at hl
        exact Or.inr ⟨l, hl, Or.inr ⟨by omega, rfl⟩⟩

/-- Witness for C1: insert at line 3 of the store `{1: JUMP 5, 3: EXPLODE}`;
the new instruction lands at 3, the old line 3 shifts to 4, line 1 is
unchanged, and the entry count grows from 2 to 3. -/
theorem insertAt_spec_witness :
    jsLookup (3 : ℤ) (SparseVM.insertLine
        [((1 : ℤ), ⟨"JUMP", [Arg.num 5]⟩), ((3 : ℤ), ⟨"EXPLODE", []⟩)]
        3 ⟨"DEFUSE", []⟩) = some ⟨"DEFUSE", []⟩
    ∧ jsLookup (3 + 1 : ℤ) (SparseVM.insertLine
        [((1 : ℤ), ⟨"JUMP", [Arg.num 5]⟩), ((3 : ℤ), ⟨"EXPLODE", []⟩)]
        3 ⟨"DEFUSE", []⟩) = some ⟨"EXPLODE", []⟩
    ∧ jsLookup (1 : ℤ) (SparseVM.insertLine
        [((1 : ℤ), ⟨"JUMP", [Arg.num 5]⟩), ((3 : ℤ), ⟨"EXPLODE", []⟩)]
        3 ⟨"DEFUSE", []⟩) = some ⟨"JUMP", [Arg.num 5]⟩
    ∧ (SparseVM.insertLine
        [((1 : ℤ), ⟨"JUMP", [Arg.num 5]⟩), ((3 : ℤ), ⟨"EXPLODE", []⟩)]
        3 ⟨"DEFUSE", []⟩).length
      = ([((1 : ℤ), ⟨"JUMP", [Arg.num 5]⟩),
          ((3 : ℤ), ⟨"EXPLODE", []⟩)] : Prog).length + 1 :=
  ⟨(insertAt_spec [((1 : ℤ), ⟨"JUMP", [Arg.num 5]⟩),
      ((3 : ℤ), ⟨"EXPLODE", []⟩)] 3 ⟨"DEFUSE", []⟩ (by decide)).1,
   (insertAt_spec [((1 : ℤ), ⟨"JUMP", [Arg.num 5]⟩),
      ((3 : ℤ), ⟨"EXPLODE", []⟩)] 3 ⟨"DEFUSE", []⟩ (by decide)).2.1
      3 ⟨"EXPLODE", []⟩ (by decide) (by decide),
   (insertAt_spec [((1 : ℤ), ⟨"JUMP", [Arg.num 5]⟩),
      ((3 : ℤ), ⟨"EXPLODE", []⟩)] 3 ⟨"DEFUSE", []⟩ (by decide)).2.2.1
      1 ⟨"JUMP", [Arg.num 5]⟩ (by decide) (by decide),
   (insertAt_spec [((1 : ℤ), ⟨"JUMP", [Arg.num 5]⟩),
      ((3 : ℤ), ⟨"EXPLODE", []⟩)] 3 ⟨"DEFUSE", []⟩ (by decide)).2.2.2.2⟩

namespace SparseVM

/-- The line number carried by a viewport row (`none` for a gap marker). -/
def entryLine : DisplayEntry → Option ℤ
  | .gap => none
  | .line n _ => some n

/-- Membership in the viewport's key set `S` as the source builds it: every
store key together with its two neighbours, and the program counter with
its two neighbours. -/
def inDisplaySet (prog : Prog) (pc x : ℤ) : Prop :=
  (∃ k ∈ prog.map Prod.fst, x = k ∨ x = k - 1 ∨ x = k + 1)
  ∨ x = pc - 1 ∨ x = pc ∨ x = pc + 1

instance (prog : Prog) (pc x : ℤ) : Decidable (inDisplaySet prog pc x) := by
  unfold inDisplaySet
  infer_instance

theorem mem_displayKeys_iff {prog : Prog} {pc x : ℤ} :
    x ∈ displayKeys prog pc ↔ inDisplaySet prog pc x := by
  unfold displayKeys inDisplaySet
  rw [(List.perm_insertionSort _ _).mem_iff, List.mem_dedup]
  simp [List.mem_flatMap]

theorem displayKeys_nodup (prog : Prog) (pc : ℤ) :
    (displayKeys prog pc).Nodup :=
  (List.perm_insertionSort _ _).nodup_iff.mpr (List.nodup_dedup _)

theorem displayKeys_sorted (prog : Prog) (pc : ℤ) :
    List.Sorted (· < ·) (displayKeys prog pc) := by
  have hle : List.Sorted (fun a b : ℤ => a ≤ b) (displayKeys prog pc) :=
    List.sorted_insertionSort _ _
  have hnd : (displayKeys prog pc).Nodup := displayKeys_nodup prog pc
  exact List.Pairwise.imp (fun h => lt_of_le_of_ne h.1 h.2) (hle.and hnd)

theorem renderLines_cons (prog : Prog) (k : ℤ) (l : List ℤ) :
    ∃ t, renderLines prog (k :: l) =
      DisplayEntry.line k (fetch prog k) :: t := by
  cases l with
  | nil => exact ⟨[], rfl⟩
  | cons b rest => exact ⟨_, rfl⟩

theorem renderLines_entryLines (prog : Prog) :
    ∀ ks : List ℤ, (renderLines prog ks).filterMap entryLine = ks := by
  intro ks
  induction ks with
  | nil => rfl
  | cons a tail ih =>
      cases tail with
      | nil => rfl
      | cons b rest =>
          simp only [renderLines] at ih ⊢
          split <;>
            simp [entryLine, List.filterMap_cons, List.filterMap_append, ih]

/-- Between two adjacent retained lines the render loop emits exactly one
gap marker when they differ by more than 1, and nothing otherwise. -/
theorem renderLines_adjacent (prog : Prog) {a b : ℤ} :
    ∀ ks : List ℤ, List.Sorted (· < ·) ks → a ∈ ks → b ∈ ks → a < b →
      (∀ c ∈ ks, ¬(a < c ∧ c < b)) →
      ∃ pre post, renderLines prog ks =
        pre ++ DisplayEntry.line a (fetch prog a) ::
          ((if b - a > 1 then [DisplayEntry.gap] else []) ++
            DisplayEntry.line b (fetch prog b) :: post) := by
  intro ks
  induction ks with
  | nil => intro _ ha; cases ha
  | cons x tail ih =>
      intro hsort ha hb hab hbetween
      cases tail with
      | nil =>
          exfalso
          have ha1 := List.mem_singleton.mp ha
          have hb1 := List.mem_singleton.mp hb
          omega
      | cons y rest =>
          rcases List.mem_cons.mp ha with rfl | hatail
          · have hby : b = y := by
              rcases List.mem_cons.mp hb with hbx | hbtail
              · omega
              · rcases List.mem_cons.mp hbtail with rfl | hbrest
                · rfl
                · exfalso
                  have hay : a < y :=
                    (List.sorted_cons.mp hsort).1 y (List.mem_cons_self y rest)
                  have hyb : y < b :=
                    (List.sorted_cons.mp (List.sorted_cons.mp hsort).2).1
                      b hbrest
                  exact hbetween y
                    (List.mem_cons_of_mem _ (List.mem_cons_self y rest))
                    ⟨hay, hyb⟩
            subst hby
            obtain ⟨t, ht⟩ := renderLines_cons prog b rest
            refine ⟨[], t, ?_⟩
            simp only [renderLines]
            rw [ht]
            simp
          · have hbtail : b ∈ y :: rest := by
              rcases List.mem_cons.mp hb with rfl | h
              · exfalso
                have hxa : b < a := (List.sorted_cons.mp hsort).1 a hatail
                omega
              · exact h
            obtain ⟨pre, post, hdecomp⟩ := ih (List.sorted_cons.mp hsort).2
              hatail hbtail hab
              (fun c hc => hbetween c (List.mem_cons_of_mem _ hc))
            refine ⟨DisplayEntry.line x (fetch prog x) ::
              ((if y - x > 1 then [DisplayEntry.gap] else []) ++ pre),
              post, ?_⟩
            simp only [renderLines]
            rw [hdecomp]
            simp

end SparseVM

/-- C8: the viewport is built from the set `S` of every store key with both
neighbours, united with the program counter and both its neighbours, in
ascending order: the retained-line sequence of the output is exactly the
sorted key list, each retained line is emitted with its stored instruction
(`EMPTY` when absent), and between two retained lines `a < b` with no
retained line strictly between them the output carries exactly one gap
marker when `b - a > 1` and none when `b - a = 1`. -/
theorem viewport_spec (prog : Prog) (pc a b : ℤ)
    (ha : SparseVM.inDisplaySet prog pc a)
    (hb : SparseVM.inDisplaySet prog pc b) (hab : a < b)
    (hbetween : ∀ c, SparseVM.inDisplaySet prog pc c → ¬(a < c ∧ c < b)) :
    (∀ x, x ∈ SparseVM.displayKeys prog pc ↔ SparseVM.inDisplaySet prog pc x)
    ∧ List.Sorted (· < ·) (SparseVM.displayKeys prog pc)
    ∧ (SparseVM.getDisplayedProgram prog pc).filterMap SparseVM.entryLine
        = SparseVM.displayKeys prog pc
    ∧ ∃ pre post, SparseVM.getDisplayedProgram prog pc =
        pre ++ SparseVM.DisplayEntry.line a (SparseVM.fetch prog a) ::
          ((if b - a > 1 then [SparseVM.DisplayEntry.gap] else []) ++
            SparseVM.DisplayEntry.line b (SparseVM.fetch prog b) :: post) := by
  refine ⟨fun x => SparseVM.mem_displayKeys_iff,
    SparseVM.displayKeys_sorted prog pc,
    SparseVM.renderLines_entryLines prog (SparseVM.displayKeys prog pc), ?_⟩
  exact SparseVM.renderLines_adjacent prog (SparseVM.displayKeys prog pc)
    (SparseVM.displayKeys_sorted prog pc)
    (SparseVM.mem_displayKeys_iff.mpr ha)
    (SparseVM.mem_displayKeys_iff.mpr hb) hab
    (fun c hc => hbetween c (SparseVM.mem_displayKeys_iff.mp hc))

/-- Witness for C8: store `{1: JUMP 5}` with `pc = 5`; the retained lines
are `{0,1,2} ∪ {4,5,6}`, and between the adjacent retained lines 2 and 4
(difference 2) the output carries exactly one gap marker. -/
theorem viewport_spec_witness :
    ((SparseVM.getDisplayedProgram [((1 : ℤ), ⟨"JUMP", [Arg.num 5]⟩)] 5
        ).filterMap SparseVM.entryLine
      = SparseVM.displayKeys [((1 : ℤ), ⟨"JUMP", [Arg.num 5]⟩)] 5)
    ∧ ∃ pre post,
        SparseVM.getDisplayedProgram [((1 : ℤ), ⟨"JUMP", [Arg.num 5]⟩)] 5 =
          pre ++ SparseVM.DisplayEntry.line 2
              (SparseVM.fetch [((1 : ℤ), ⟨"JUMP", [Arg.num 5]⟩)] 2) ::
            ((if (4 : ℤ) - 2 > 1 then [SparseVM.DisplayEntry.gap] else []) ++
              SparseVM.DisplayEntry.line 4
                (SparseVM.fetch [((1 : ℤ), ⟨"JUMP", [Arg.num 5]⟩)] 4)
                :: post) :=
  ⟨(viewport_spec [((1 : ℤ), ⟨"JUMP", [Arg.num 5]⟩)] 5 2 4 (by decide)
      (by decide) (by decide)
      (by
        intro c hc h
        have hc3 : c = 3 := by omega
        subst hc3
        exact absurd hc (by decide))).2.2.1,
   (viewport_spec [((1 : ℤ), ⟨"JUMP", [Arg.num 5]⟩)] 5 2 4 (by decide)
      (by decide) (by decide)
      (by
        intro c hc h
        have hc3 : c = 3 := by omega
        subst hc3
        exact absurd hc (by decide))).2.2.2⟩
